import Mathlib

/-!
Verification development for the credential-protection subsystem of the
OPNManager desktop client (`src-tauri/src/db.rs`, `src-tauri/src/pin_cache.rs`,
`src-tauri/src/commands.rs`).

Rust strings are modelled as their UTF-8 byte lists (`RStr`), i64 values as
`Int`, u16 as `Nat`.  Fallible Rust functions returning `Result` become
`Except`; random draws (nonces, salts) become explicit arguments; the SQLite
store becomes an explicit `DbState` record, and every stateful operation takes
and returns the state.  Error strings are modelled by structured error types,
one constructor per distinct message produced by the source.
-/

/-- A Rust `String`/`&str`, modelled as its UTF-8 byte list. -/
abbrev RStr := List Nat

/-- One step of a simple 32-bit multiply-accumulate mix, used to model the
externally-implemented cryptographic digests (see `mixFold`). -/
def mixStep (a b : Nat) : Nat := (a * 131 + b + 1) % 4294967296

/-- Modelled from the spec: deterministic byte mixing underlying the digest
models below.  The SHA-256, Argon2 and ChaCha20/Poly1305 primitives live in
external crates (`sha2`, `argon2`, `chacha20poly1305`), not in this
repository; the spec (sections 4.1 and 4.2) only relies on them being
deterministic functions of their inputs, which `mixFold` provides. -/
def mixFold (l : List Nat) (acc : Nat) : Nat := l.foldl mixStep acc

/-- Modelled from the spec: the external `sha2` crate's SHA-256 digest, used
by `encrypt_string`/`decrypt_string` in `db.rs` to derive the 32-byte cipher
key from the PIN ("a one-way digest of the PIN string", spec section 4.2).
Only determinism matters for the claims. -/
def sha256Model (msg : List Nat) : List Nat :=
  (List.range 32).map (fun j => mixFold (msg ++ [j]) 2166136261 % 256)

/-- Modelled from the spec: the ChaCha20 keystream byte at position `i` for a
given key and nonce (external `chacha20poly1305` crate).  The claims depend
only on it being a deterministic function of `(key, nonce, i)`. -/
def keystreamByte (key nonce : List Nat) (i : Nat) : Nat :=
  mixFold (key ++ nonce ++ [i]) 1099511628211 % 256

/-- Modelled from the spec: the 16-byte Poly1305 authentication tag over a
ciphertext (external `chacha20poly1305` crate); deterministic in
`(key, nonce, ciphertext)`. -/
def polyTag (key nonce ct : List Nat) : List Nat :=
  (List.range 16).map (fun j => mixFold (key ++ nonce ++ ct ++ [j]) 14695981039 % 256)

/-- XOR a byte list with the keystream starting at position `i` (the stream
cipher layer of the AEAD). -/
def xorKS (key nonce : List Nat) : Nat → List Nat → List Nat
  | _, [] => []
  | i, b :: rest => (b ^^^ keystreamByte key nonce i) :: xorKS key nonce (i + 1) rest

/-- AEAD encryption: stream-encrypted bytes followed by the 16-byte tag
(the `chacha20poly1305` crate's `encrypt` output layout). -/
def aeadEncrypt (key nonce pt : List Nat) : List Nat :=
  let ct := xorKS key nonce 0 pt
  ct ++ polyTag key nonce ct

/-- AEAD decryption: split off the trailing 16-byte tag, recompute it over the
ciphertext and compare; on a match, undo the stream cipher, otherwise fail
(the crate's authentication-tag check). -/
def aeadDecrypt (key nonce data : List Nat) : Option (List Nat) :=
  if data.length < 16 then none
  else
    let n := data.length - 16
    let ct := data.take n
    let tag := data.drop n
    if tag = polyTag key nonce ct then some (xorKS key nonce 0 ct) else none

/-- Is `b` a UTF-8 continuation byte (`0x80`..`0xBF`)? -/
def contByte (b : Nat) : Bool := 128 ≤ b && b ≤ 191

/-- UTF-8 validity of a byte list, as checked by Rust's `String::from_utf8`
(RFC 3629: shortest forms only, no surrogates, max `U+10FFFF`). -/
def validUtf8 : List Nat → Bool
  | [] => true
  | b :: rest =>
    if b ≤ 127 then validUtf8 rest
    else if 194 ≤ b && b ≤ 223 then
      match rest with
      | c1 :: r => contByte c1 && validUtf8 r
      | [] => false
    else if b = 224 then
      match rest with
      | c1 :: c2 :: r => (160 ≤ c1 && c1 ≤ 191) && contByte c2 && validUtf8 r
      | _ => false
    else if 225 ≤ b && b ≤ 236 then
      match rest with
      | c1 :: c2 :: r => contByte c1 && contByte c2 && validUtf8 r
      | _ => false
    else if b = 237 then
      match rest with
      | c1 :: c2 :: r => (128 ≤ c1 && c1 ≤ 159) && contByte c2 && validUtf8 r
      | _ => false
    else if 238 ≤ b && b ≤ 239 then
      match rest with
      | c1 :: c2 :: r => contByte c1 && contByte c2 && validUtf8 r
      | _ => false
    else if b = 240 then
      match rest with
      | c1 :: c2 :: c3 :: r => (144 ≤ c1 && c1 ≤ 191) && contByte c2 && contByte c3 && validUtf8 r
      | _ => false
    else if 241 ≤ b && b ≤ 243 then
      match rest with
      | c1 :: c2 :: c3 :: r => contByte c1 && contByte c2 && contByte c3 && validUtf8 r
      | _ => false
    else if b = 244 then
      match rest with
      | c1 :: c2 :: c3 :: r => (128 ≤ c1 && c1 ≤ 143) && contByte c2 && contByte c3 && validUtf8 r
      | _ => false
    else false

deriving instance DecidableEq for Except

/-- Errors produced by `decrypt_string` (`db.rs` 146-166): the crate's
authentication failure ("Decryption failed: ...") or the `String::from_utf8`
failure ("UTF-8 error: ..."). -/
inductive StrErr
  | decryptFailed
  | utf8Error
deriving DecidableEq

/-- `Database::encrypt_string` (`db.rs` 125-144): derive the cipher key as the
SHA-256 digest of the PIN bytes and AEAD-encrypt the plaintext.  The source
draws the 12 nonce bytes from `thread_rng`; the model receives them as the
explicit `nonceBytes` argument and returns them alongside the ciphertext,
exactly as the source returns `(ciphertext, nonce_bytes)`. -/
def encrypt_string (plaintext pin : RStr) (nonceBytes : List Nat) : List Nat × List Nat :=
  (aeadEncrypt (sha256Model pin) nonceBytes plaintext, nonceBytes)

/-- `Database::decrypt_string` (`db.rs` 146-166): re-derive the key from the
PIN, AEAD-decrypt, then decode the plaintext as UTF-8. -/
def decrypt_string (ciphertext nonceBytes : List Nat) (pin : RStr) : Except StrErr RStr :=
  match aeadDecrypt (sha256Model pin) nonceBytes ciphertext with
  | none => .error .decryptFailed
  | some pt => if validUtf8 pt then .ok pt else .error .utf8Error

theorem xorKS_length (key nonce : List Nat) (i : Nat) (l : List Nat) :
    (xorKS key nonce i l).length = l.length := by
  induction l generalizing i with
  | nil => rfl
  | cons b rest ih => simp [xorKS, ih]

theorem xorKS_xorKS (key nonce : List Nat) (i : Nat) (l : List Nat) :
    xorKS key nonce i (xorKS key nonce i l) = l := by
  induction l generalizing i with
  | nil => rfl
  | cons b rest ih =>
    simp only [xorKS, ih]
    rw [Nat.xor_assoc, Nat.xor_self, Nat.xor_zero]

theorem polyTag_length (key nonce ct : List Nat) : (polyTag key nonce ct).length = 16 := by
  simp [polyTag]

/-- C2: decrypting the ciphertext and nonce produced by `encrypt_string` under
the same PIN recovers exactly the original plaintext string. -/
theorem encrypt_decrypt_roundtrip (s pin : RStr) (nonce : List Nat)
    (hs : validUtf8 s = true) :
    decrypt_string (encrypt_string s pin nonce).1 (encrypt_string s pin nonce).2 pin =
      Except.ok s := by
  have hct : (xorKS (sha256Model pin) nonce 0 s).length = s.length :=
    xorKS_length (sha256Model pin) nonce 0 s
  simp only [encrypt_string, decrypt_string, aeadEncrypt, aeadDecrypt]
  rw [List.length_append, polyTag_length, hct]
  have h16 : ¬ (s.length + 16 < 16) := by omega
  rw [if_neg h16]
  have htake : (xorKS (sha256Model pin) nonce 0 s ++
      polyTag (sha256Model pin) nonce (xorKS (sha256Model pin) nonce 0 s)).take
        (s.length + 16 - 16) = xorKS (sha256Model pin) nonce 0 s := by
    have : s.length + 16 - 16 = (xorKS (sha256Model pin) nonce 0 s).length := by omega
    rw [this, List.take_left]
  have hdrop : (xorKS (sha256Model pin) nonce 0 s ++
      polyTag (sha256Model pin) nonce (xorKS (sha256Model pin) nonce 0 s)).drop
        (s.length + 16 - 16) =
        polyTag (sha256Model pin) nonce (xorKS (sha256Model pin) nonce 0 s) := by
    have : s.length + 16 - 16 = (xorKS (sha256Model pin) nonce 0 s).length := by omega
    rw [this, List.drop_left]
  rw [htake, hdrop, if_pos rfl, xorKS_xorKS]
  simp [hs]

/-- Witness for C2 at a concrete plaintext, PIN and nonce. -/
theorem encrypt_decrypt_roundtrip_witness :
    validUtf8 [104, 105] = true ∧
      decrypt_string (encrypt_string [104, 105] [49] [0, 1, 2, 3, 4, 5, 6, 7, 8, 9, 10, 11]).1
        (encrypt_string [104, 105] [49] [0, 1, 2, 3, 4, 5, 6, 7, 8, 9, 10, 11]).2 [49] =
        Except.ok [104, 105] :=
  ⟨by decide, encrypt_decrypt_roundtrip [104, 105] [49]
    [0, 1, 2, 3, 4, 5, 6, 7, 8, 9, 10, 11] (by decide)⟩

/-- Parameter-name error payloads of `rusqlite::Error::InvalidParameterName`
raised by `save_api_info` (`db.rs` 575-601). -/
inductive PMsg
  | noPinForEncryption
  | authRequired
  | encKeyFailed
  | encSecretFailed
deriving DecidableEq

/-- Key-derivation failures of `derive_encryption_key` (`db.rs` 103-118). -/
inductive KdfErr
  | invalidSalt
deriving DecidableEq

/-- The `rusqlite::Error` values the modelled code can produce:
`QueryReturnedNoRows`, a missing-table `SqliteFailure`, an
`InvalidParameterName`, the `FromSqlConversionFailure` wrapper used by
`verify_pin` for key-derivation failures, a constraint violation, and an
injected storage fault (`ioFault`) standing for an underlying SQLite I/O
error (the spec's `StorageError`, section 7). -/
inductive SqlErr
  | noRows
  | noTable
  | invalidParam (m : PMsg)
  | conversion (k : KdfErr)
  | constraintViolation
  | ioFault
deriving DecidableEq

/-- The `String` errors of the `Result<_, String>` functions in `db.rs`
(`complete_migration`, `update_pin`), one constructor per format string. -/
inductive EMsg
  | sqlFailed (e : SqlErr)
  | verifyCurrentFailed (e : SqlErr)
  | wrongCurrentPin
  | listFailed (e : SqlErr)
  | saveProfileFailed (n : RStr) (e : SqlErr)
deriving DecidableEq

/-- The `String` errors of the Tauri command handlers in `commands.rs`. -/
inductive CmdErr
  | pinMismatch
  | dbErr (e : EMsg)
  | lastProfile
  | listFailed (e : SqlErr)
  | deleteFailed (e : SqlErr)
  | noOtherProfile
  | setDefaultFailed (e : SqlErr)
deriving DecidableEq

/-- Modelled from the spec: an Argon2 PHC hash string (external `argon2`
crate) parsed into its embedded salt and digest; `hash_password` embeds a
fresh salt and `verify_password` is self-contained (spec section 4.1). -/
structure PHash where
  salt : RStr
  digest : RStr
deriving DecidableEq

/-- The singleton `app_settings` row (id = 1): `password_hash`, `pin_salt`. -/
structure AppSettings where
  password_hash : PHash
  pin_salt : RStr
deriving DecidableEq

/-- The cleartext credential columns of the unencrypted `api_info` schema. -/
structure PlainCred where
  api_key : RStr
  api_secret : RStr
deriving DecidableEq

/-- The ciphertext/nonce credential columns of the encrypted `api_info`
schema. -/
structure EncCred where
  encrypted_api_key : RStr
  api_key_nonce : RStr
  encrypted_api_secret : RStr
  api_secret_nonce : RStr
deriving DecidableEq

/-- One `api_info` row; `α` is the credential column group of the current
schema shape.  `id` is the `INTEGER PRIMARY KEY` (also the SQLite rowid). -/
structure Row (α : Type) where
  id : Int
  profile_name : RStr
  cred : α
  api_url : RStr
  port : Nat
  is_default : Bool
deriving DecidableEq

/-- The shape-polymorphic `api_info` table (spec section 3): either the
unencrypted or the encrypted schema.  `pragma_table_info` column checks in the
source correspond to matching on the constructor. -/
inductive ApiTable
  | plain (rows : List (Row PlainCred))
  | enc (rows : List (Row EncCred))
deriving DecidableEq

/-- One `dashboard_preferences` row. -/
structure DashPref where
  profile_id : Int
  widget_key : RStr
  visible : Bool
  position : Int
deriving DecidableEq

/-- The whole mutable state of the `Database` struct plus its SQLite file:
the two possible `api_info` tables, the transient `api_info_new` migration
table, the `app_settings` singleton row (`none` = no row), the preference
rows, and the two in-memory fields `pin_cache` (`PinCache`, `pin_cache.rs`)
and `current_pin_key`. -/
structure DbState where
  api_info : Option ApiTable
  api_info_new : Option (List (Row EncCred))
  app_settings : Option AppSettings
  dashboard_preferences : List DashPref
  pin_cache : Option RStr
  current_pin_key : Option RStr
deriving DecidableEq

/-- The `ApiInfo` struct of `db.rs` (decrypted profile view). -/
structure ApiInfo where
  id : Int
  profile_name : RStr
  api_key : RStr
  api_secret : RStr
  api_url : RStr
  port : Nat
  is_default : Bool
deriving DecidableEq

/-- Names column of a row list. -/
def namesOf {α : Type} (rows : List (Row α)) : List RStr := rows.map (fun r => r.profile_name)

/-- Ids column of a row list. -/
def idsOf {α : Type} (rows : List (Row α)) : List Int := rows.map (fun r => r.id)

/-- Number of rows flagged default. -/
def defCount {α : Type} (rows : List (Row α)) : Nat := rows.countP (fun r => r.is_default)

/-- The SQLite rowid assigned to an `INSERT` that does not specify `id`:
one more than the largest existing rowid (`0` floor for the empty table). -/
def freshId {α : Type} (rows : List (Row α)) : Int :=
  (rows.map (fun r => r.id)).foldl max 0 + 1

/-- `SELECT MIN(rowid) FROM api_info`. -/
def minIdOf {α : Type} : List (Row α) → Option Int
  | [] => none
  | r :: rest =>
    some (match minIdOf rest with
          | none => r.id
          | some m => min r.id m)

/-- `UPDATE api_info SET is_default = 1 WHERE rowid = ?`: flag every row
whose id equals `m`. -/
def promoteRows {α : Type} (m : Int) (rows : List (Row α)) : List (Row α) :=
  rows.map (fun r => if r.id = m then { r with is_default := true } else r)

/-- `UPDATE api_info SET is_default = 1 WHERE rowid = (SELECT MIN(rowid) ...)`
(`db.rs` 963-968). -/
def promoteMin {α : Type} (rows : List (Row α)) : List (Row α) :=
  match minIdOf rows with
  | none => rows
  | some m => promoteRows m rows

/-- Net effect of `set_default_profile`'s two `UPDATE`s: every row's
`is_default` becomes "name matches". -/
def setDefRows {α : Type} (n : RStr) (rows : List (Row α)) : List (Row α) :=
  rows.map (fun r => { r with is_default := r.profile_name == n })

/-- `WHERE profile_name = ?` row predicate, or `WHERE is_default = 1` when no
name is given (the two queries of `get_api_info`). -/
def matchQ {α : Type} (q : Option RStr) (r : Row α) : Bool :=
  match q with
  | some n => r.profile_name == n
  | none => r.is_default

/-- Lexicographic byte-order comparison backing `ORDER BY profile_name`. -/
def lexLe : List Nat → List Nat → Bool
  | [], _ => true
  | _ :: _, [] => false
  | a :: xs, b :: ys => if a < b then true else if b < a then false else lexLe xs ys

/-- Insert a row into a name-sorted list (`ORDER BY profile_name`). -/
def insertByName {α : Type} (r : Row α) : List (Row α) → List (Row α)
  | [] => [r]
  | x :: xs => if lexLe r.profile_name x.profile_name then r :: x :: xs else x :: insertByName r xs

/-- Sort rows by profile name (`ORDER BY profile_name`). -/
def sortByName {α : Type} : List (Row α) → List (Row α)
  | [] => []
  | r :: rest => insertByName r (sortByName rest)

/-- Boolean duplicate-freedom of a key list (the `UNIQUE` column constraint;
decidably checkable on concrete stores). -/
def nodupKeys {α : Type} [DecidableEq α] : List α → Bool
  | [] => true
  | x :: xs => !(xs.contains x) && nodupKeys xs

/-- Schema well-formedness of a row list: the `profile_name UNIQUE` constraint
and primary-key uniqueness, both enforced by SQLite on every reachable
store. -/
def rowsWF {α : Type} (rows : List (Row α)) : Bool :=
  nodupKeys (namesOf rows) && nodupKeys (idsOf rows)

/-- `rowsWF` for whichever shape the `api_info` table currently has
(`false` when the table is absent). -/
def storeWF (st : DbState) : Bool :=
  match st.api_info with
  | some (ApiTable.plain rows) => rowsWF rows
  | some (ApiTable.enc rows) => rowsWF rows
  | none => false

/-- Number of default-flagged rows in the current `api_info` table. -/
def defaultCountState (st : DbState) : Nat :=
  match st.api_info with
  | some (ApiTable.plain rows) => defCount rows
  | some (ApiTable.enc rows) => defCount rows
  | none => 0

/-- Number of rows in the current `api_info` table. -/
def tableLenState (st : DbState) : Nat :=
  match st.api_info with
  | some (ApiTable.plain rows) => rows.length
  | some (ApiTable.enc rows) => rows.length
  | none => 0

/-- Names present in the current `api_info` table. -/
def storeNames (st : DbState) : List RStr :=
  match st.api_info with
  | some (ApiTable.plain rows) => namesOf rows
  | some (ApiTable.enc rows) => namesOf rows
  | none => []

/-- Modelled from the spec: the Argon2 digest of a password under a given
salt (external `argon2` crate, spec section 4.1: "memory-hard, salted
algorithm").  Only determinism in `(password, salt)` matters. -/
def argonDigest (password salt : RStr) : RStr :=
  (List.range 32).map (fun j => mixFold (salt ++ [37] ++ password ++ [j]) 1469598103 % 256)

/-- `Database::hash_password` (`db.rs` 974-981): hash under a freshly
generated random salt; the salt is the explicit `salt` argument here and is
embedded in the returned hash value. -/
def hash_password (password : RStr) (salt : RStr) : PHash :=
  ⟨salt, argonDigest password salt⟩

/-- `Database::verify_password` (`db.rs` 983-991): self-contained check of a
password against a PHC hash using the hash's embedded salt. -/
def verify_password (hash : PHash) (password : RStr) : Bool :=
  hash.digest == argonDigest password hash.salt

/-- Modelled from the spec: validity of a `pin_salt` value for
`SaltString::from_b64` (external `argon2` crate): a B64 string of 4 to 64
characters.  The empty-string column default is invalid. -/
def validB64Salt (s : RStr) : Bool :=
  4 ≤ s.length && s.length ≤ 64 &&
    s.all (fun c => (65 ≤ c && c ≤ 90) || (97 ≤ c && c ≤ 122) ||
      (48 ≤ c && c ≤ 57) || c = 43 || c = 47)

/-- `Database::derive_encryption_key` (`db.rs` 103-118): parse the salt with
`SaltString::from_b64` (failing on an invalid salt), then Argon2-hash the PIN
under it. -/
def derive_encryption_key (pin salt : RStr) : Except KdfErr RStr :=
  if validB64Salt salt then .ok (argonDigest pin salt) else .error .invalidSalt

/-- `Database::save_initial_api_info` (`db.rs` 418-476): drop the table if it
has the encrypted shape, `CREATE TABLE IF NOT EXISTS` the unencrypted schema
(a no-op when a plain table already exists), then `INSERT` the profile with
`is_default = 1`.  The insert hits the `profile_name UNIQUE` constraint when a
surviving plain table already holds that name. -/
def save_initial_api_info (p : ApiInfo) (st : DbState) : DbState × Except SqlErr Unit :=
  match st.api_info with
  | some (ApiTable.plain rows) =>
    if rows.any (fun r => r.profile_name == p.profile_name) then
      (st, .error .constraintViolation)
    else
      ({ st with api_info := some (ApiTable.plain (rows ++
          [⟨freshId rows, p.profile_name, ⟨p.api_key, p.api_secret⟩,
            p.api_url, p.port, true⟩])) }, .ok ())
  | some (ApiTable.enc _) =>
    ({ st with api_info := some (ApiTable.plain
        [⟨1, p.profile_name, ⟨p.api_key, p.api_secret⟩, p.api_url, p.port, true⟩]) }, .ok ())
  | none =>
    ({ st with api_info := some (ApiTable.plain
        [⟨1, p.profile_name, ⟨p.api_key, p.api_secret⟩, p.api_url, p.port, true⟩]) }, .ok ())

/-- `Database::save_api_info` (`db.rs` 477-678).  No table: create the
unencrypted schema and insert as first, default profile.  Unencrypted shape:
`INSERT OR REPLACE` keyed on `profile_name` (the replacement row gets a fresh
rowid and the caller's `is_default` flag).  Encrypted shape: require an
`app_settings` hash row and a cached PIN, encrypt both credential fields under
the cached PIN with fresh nonces `n1`/`n2`, then `UPDATE` in place (preserving
`id`) if the name exists, else `INSERT`. -/
def save_api_info (p : ApiInfo) (st : DbState) (n1 n2 : List Nat) :
    DbState × Except SqlErr Unit :=
  match st.api_info with
  | none =>
    ({ st with api_info := some (ApiTable.plain
        [⟨1, p.profile_name, ⟨p.api_key, p.api_secret⟩, p.api_url, p.port, true⟩]) }, .ok ())
  | some (ApiTable.plain rows) =>
    let remaining := rows.filter (fun r => !(r.profile_name == p.profile_name))
    ({ st with api_info := some (ApiTable.plain (remaining ++
        [⟨freshId remaining, p.profile_name, ⟨p.api_key, p.api_secret⟩,
          p.api_url, p.port, p.is_default⟩])) }, .ok ())
  | some (ApiTable.enc rows) =>
    match st.app_settings with
    | none => (st, .error (.invalidParam .noPinForEncryption))
    | some _ =>
      match st.pin_cache with
      | none => (st, .error (.invalidParam .authRequired))
      | some pin =>
        let ek := encrypt_string p.api_key pin n1
        let es := encrypt_string p.api_secret pin n2
        match rows.find? (fun r => r.profile_name == p.profile_name) with
        | some r =>
          ({ st with api_info := some (ApiTable.enc (rows.map (fun x =>
              if x.id = r.id then
                ⟨x.id, x.profile_name, ⟨ek.1, ek.2, es.1, es.2⟩,
                  p.api_url, p.port, p.is_default⟩
              else x))) }, .ok ())
        | none =>
          ({ st with api_info := some (ApiTable.enc (rows ++
              [⟨freshId rows, p.profile_name, ⟨ek.1, ek.2, es.1, es.2⟩,
                p.api_url, p.port, p.is_default⟩])) }, .ok ())

/-- `Database::set_default_profile` (`db.rs` 680-704): inside one transaction,
clear `is_default` everywhere, set it on the named row, and roll back with
`QueryReturnedNoRows` when zero rows were affected.  A missing table fails the
first `UPDATE` (also rolled back). -/
def set_default_profile (n : RStr) (st : DbState) : DbState × Except SqlErr Unit :=
  match st.api_info with
  | none => (st, .error .noTable)
  | some (ApiTable.plain rows) =>
    if rows.countP (fun r => r.profile_name == n) = 0 then (st, .error .noRows)
    else ({ st with api_info := some (ApiTable.plain (setDefRows n rows)) }, .ok ())
  | some (ApiTable.enc rows) =>
    if rows.countP (fun r => r.profile_name == n) = 0 then (st, .error .noRows)
    else ({ st with api_info := some (ApiTable.enc (setDefRows n rows)) }, .ok ())

/-- The transactional body of `delete_api_profile` on the rows of either
shape: refuse when the table has at most one row, look up the victim by name,
and promote the minimum-rowid survivor when the victim was default.  Returns
the new rows and the victim's id (for the preference cleanup). -/
def deleteRows {α : Type} (n : RStr) (rows : List (Row α)) :
    Except SqlErr (List (Row α) × Int) :=
  if rows.length ≤ 1 then .error .noRows
  else
    match rows.find? (fun r => r.profile_name == n) with
    | none => .error .noRows
    | some r =>
      let remaining := rows.filter (fun x => !(x.profile_name == n))
      .ok ((if r.is_default then promoteMin remaining else remaining), r.id)

/-- `Database::delete_api_profile` (`db.rs` 927-972): the `deleteRows`
transaction plus deletion of the victim's `dashboard_preferences` rows; any
error rolls the transaction back to the pre-call state. -/
def delete_api_profile (n : RStr) (st : DbState) : DbState × Except SqlErr Unit :=
  match st.api_info with
  | none => (st, .error .noTable)
  | some (ApiTable.plain rows) =>
    match deleteRows n rows with
    | .error e => (st, .error e)
    | .ok (rows2, pid) =>
      ({ st with api_info := some (ApiTable.plain rows2),
                 dashboard_preferences :=
                   st.dashboard_preferences.filter (fun q => !(q.profile_id == pid)) }, .ok ())
  | some (ApiTable.enc rows) =>
    match deleteRows n rows with
    | .error e => (st, .error e)
    | .ok (rows2, pid) =>
      ({ st with api_info := some (ApiTable.enc rows2),
                 dashboard_preferences :=
                   st.dashboard_preferences.filter (fun q => !(q.profile_id == pid)) }, .ok ())

/-- `Database::get_api_info` (`db.rs` 719-867).  Encrypted shape: fetch the
named (or default) row; with no cached PIN return it with empty-string
credentials; with a cached PIN decrypt each field, degrading a failed field to
the empty string.  Unencrypted shape: return the row as stored.  A missing
table fails the `SELECT`. -/
def get_api_info (q : Option RStr) (st : DbState) : Except SqlErr (Option ApiInfo) :=
  match st.api_info with
  | none => .error .noTable
  | some (ApiTable.enc rows) =>
    match rows.find? (matchQ q) with
    | none => .ok none
    | some r =>
      match st.pin_cache with
      | none => .ok (some ⟨r.id, r.profile_name, [], [], r.api_url, r.port, r.is_default⟩)
      | some pin =>
        let k := match decrypt_string r.cred.encrypted_api_key r.cred.api_key_nonce pin with
          | .ok v => v
          | .error _ => []
        let s := match decrypt_string r.cred.encrypted_api_secret r.cred.api_secret_nonce pin with
          | .ok v => v
          | .error _ => []
        .ok (some ⟨r.id, r.profile_name, k, s, r.api_url, r.port, r.is_default⟩)
  | some (ApiTable.plain rows) =>
    match rows.find? (matchQ q) with
    | none => .ok none
    | some r =>
      .ok (some ⟨r.id, r.profile_name, r.cred.api_key, r.cred.api_secret,
        r.api_url, r.port, r.is_default⟩)

/-- `Database::list_api_profiles` (`db.rs` 885-925): all rows ordered by
name; on the encrypted shape the credential fields are blanked, never
decrypted. -/
def list_api_profiles (st : DbState) : Except SqlErr (List ApiInfo) :=
  match st.api_info with
  | none => .error .noTable
  | some (ApiTable.enc rows) =>
    .ok ((sortByName rows).map (fun r =>
      ⟨r.id, r.profile_name, [], [], r.api_url, r.port, r.is_default⟩))
  | some (ApiTable.plain rows) =>
    .ok ((sortByName rows).map (fun r =>
      ⟨r.id, r.profile_name, r.cred.api_key, r.cred.api_secret,
        r.api_url, r.port, r.is_default⟩))

/-- `SELECT COUNT(*) FROM pragma_table_info('api_info') WHERE
name='encrypted_api_key'` — the encrypted-schema marker column check. -/
def hasEncryptedColumn (st : DbState) : Bool :=
  match st.api_info with
  | some (ApiTable.enc _) => true
  | _ => false

/-- `SELECT COUNT(*) FROM pragma_table_info('api_info') WHERE name='api_key'`
— the plaintext-column check. -/
def hasApiKeyColumn (st : DbState) : Bool :=
  match st.api_info with
  | some (ApiTable.plain _) => true
  | _ => false

/-- `SELECT COUNT(*) FROM app_settings WHERE id = 1 AND pin_salt != ''`. -/
def saltExists (st : DbState) : Bool :=
  match st.app_settings with
  | some s => !(s.pin_salt == [])
  | none => false

/-- The per-row loop of `complete_migration` (`db.rs` 351-377): encrypt each
plaintext row's credentials under the just-verified PIN (nonces drawn from
`rn`) and `INSERT` into `api_info_new` preserving `id`; a primary-key or
unique-name collision with rows already in `api_info_new` (left over from an
earlier interrupted run) fails that insert.  Returns the accumulated new rows
together with the error that stopped the loop, if any. -/
def migrateRows (pin : RStr) (rn : Nat → List Nat) :
    Nat → List (Row PlainCred) → List (Row EncCred) →
      List (Row EncCred) × Option SqlErr
  | _, [], acc => (acc, none)
  | i, r :: rest, acc =>
    if (acc.map (fun x => x.id)).contains r.id ||
        (acc.map (fun x => x.profile_name)).contains r.profile_name then
      (acc, some .constraintViolation)
    else
      let ek := encrypt_string r.cred.api_key pin (rn (2 * i))
      let es := encrypt_string r.cred.api_secret pin (rn (2 * i + 1))
      migrateRows pin rn (i + 1) rest (acc ++
        [⟨r.id, r.profile_name, ⟨ek.1, ek.2, es.1, es.2⟩, r.api_url, r.port, r.is_default⟩])

/-- Migration step 1 (`db.rs` 276-300): ensure a non-empty `pin_salt`,
generating `saltR` when it is empty (the `UPDATE` touches nothing when no
`app_settings` row exists). -/
def migrationSaltStep (st : DbState) (saltR : RStr) : DbState :=
  if saltExists st then st
  else { st with app_settings :=
    st.app_settings.map (fun s => { s with pin_salt := saltR }) }

/-- Migration step 2 (`db.rs` 302-321): ensure the `api_info_new` table
exists. -/
def migrationTableStep (st : DbState) : DbState :=
  if st.api_info_new.isSome then st else { st with api_info_new := some [] }

/-- `Database::complete_migration` (`db.rs` 227-392): return `Ok` immediately
when the encrypted marker column exists or no plaintext `api_key` column does
(together: whenever the table is not in the plain shape); otherwise ensure a
non-empty `pin_salt` (generating `saltR` when empty), ensure `api_info_new`
exists, encrypt every plaintext row into it, then drop the old table and
rename `api_info_new` into its place.  A failed insert leaves the plaintext
table intact and `api_info_new` holding the rows inserted so far. -/
def complete_migration (pin : RStr) (st : DbState) (saltR : RStr) (rn : Nat → List Nat) :
    DbState × Except EMsg Unit :=
  match st.api_info with
  | some (ApiTable.plain rows) =>
    let st1 := migrationSaltStep st saltR
    let st2 := migrationTableStep st1
    match migrateRows pin rn 0 rows (st2.api_info_new.getD []) with
    | (acc, some e) => ({ st2 with api_info_new := some acc }, .error (.sqlFailed e))
    | (acc, none) =>
      ({ st2 with api_info := some (ApiTable.enc acc), api_info_new := none }, .ok ())
  | _ => (st, .ok ())

/-- `Database::verify_pin` (`db.rs` 993-1055): read the stored hash (no row:
`Ok(false)`), verify the PIN against it; on success cache the PIN, read
`pin_salt`, run `complete_migration` best-effort (its failure is logged, not
propagated), then derive the Argon2 key from the pre-migration salt — a
derivation failure is wrapped in a `FromSqlConversionFailure` error and
propagated; otherwise store the key and return `Ok(true)`. -/
def verify_pin (pin : RStr) (st : DbState) (saltR : RStr) (rn : Nat → List Nat) :
    DbState × Except SqlErr Bool :=
  match st.app_settings with
  | none => (st, .ok false)
  | some s =>
    if verify_password s.password_hash pin then
      let stc := { st with pin_cache := some pin }
      let stm := (complete_migration pin stc saltR rn).1
      match derive_encryption_key pin s.pin_salt with
      | .error k => (stm, .error (.conversion k))
      | .ok key => ({ stm with current_pin_key := some key }, .ok true)
    else (st, .ok false)

/-- `save_api_info` as called from `update_pin`'s re-encryption loop, with an
injected storage-fault oracle: `failOn p.profile_name = true` models the
underlying SQLite statement failing with an I/O error (the spec's
`StorageError`, section 7) for that profile's save; otherwise the call is
exactly `save_api_info`. -/
def save_api_info_io (failOn : RStr → Bool) (p : ApiInfo) (st : DbState) (n1 n2 : List Nat) :
    DbState × Except SqlErr Unit :=
  if failOn p.profile_name then (st, .error .ioFault) else save_api_info p st n1 n2

/-- The profile-collection loop of `update_pin` (`db.rs` 1090-1107): keep
each profile for which `get_api_info` returns `Ok(Some(_))`, skip the rest. -/
def collectDecrypted (st : DbState) : List ApiInfo → List ApiInfo
  | [] => []
  | p :: rest =>
    match get_api_info (some p.profile_name) st with
    | .ok (some info) => info :: collectDecrypted st rest
    | _ => collectDecrypted st rest

/-- The re-encryption loop of `update_pin` (`db.rs` 1139-1153): save each
decrypted profile under the (new) cached PIN; on a failed save, restore the
old PIN into the cache when one was saved, and return an error naming the
failed profile. -/
def resaveLoop (failOn : RStr → Bool) (oldPin : Option RStr) (rn : Nat → List Nat) :
    Nat → List ApiInfo → DbState → DbState × Except EMsg Unit
  | _, [], st => (st, .ok ())
  | i, p :: rest, st =>
    match save_api_info_io failOn p st (rn (2 * i)) (rn (2 * i + 1)) with
    | (st1, .ok _) => resaveLoop failOn oldPin rn (i + 1) rest st1
    | (st1, .error e) =>
      (match oldPin with
       | some o => { st1 with pin_cache := some o }
       | none => st1,
       .error (.saveProfileFailed p.profile_name e))

/-- `Database::update_pin` (`db.rs` 1073-1158): verify the current PIN (with
its caching/migration side effects), list the profiles, decrypt them under
the current PIN, store the new hash (fresh salt `hashSalt`), clear the cached
key, swap the new PIN into the cache, and re-encrypt every profile.
Randomness: `saltR`/`rnV` feed `verify_pin`'s migration, `rnS` the
re-encryption nonces; `failOn` is the storage-fault oracle of
`save_api_info_io`. -/
def update_pin (currentPin newPin : RStr) (failOn : RStr → Bool) (st : DbState)
    (saltR : RStr) (rnV : Nat → List Nat) (hashSalt : RStr) (rnS : Nat → List Nat) :
    DbState × Except EMsg Unit :=
  match verify_pin currentPin st saltR rnV with
  | (st1, .error e) => (st1, .error (.verifyCurrentFailed e))
  | (st1, .ok ok) =>
    if !ok then (st1, .error .wrongCurrentPin)
    else
      match list_api_profiles st1 with
      | .error e => (st1, .error (.listFailed e))
      | .ok profiles =>
        let decrypted := collectDecrypted st1 profiles
        let newHash := hash_password newPin hashSalt
        let st2 := { st1 with app_settings :=
          st1.app_settings.map (fun s : AppSettings => { s with password_hash := newHash }) }
        let st3 := { st2 with current_pin_key := none }
        let oldPin := st3.pin_cache
        let st4 := { st3 with pin_cache := some newPin }
        resaveLoop failOn oldPin rnS 0 decrypted st4

/-- The `update_pin` Tauri command (`commands.rs` 146-166): reject a
mismatched confirmation before touching the database, else run
`Database::update_pin` and, on success, store the new PIN in the cache. -/
def cmd_update_pin (currentPin newPin confirmNewPin : RStr) (failOn : RStr → Bool)
    (st : DbState) (saltR : RStr) (rnV : Nat → List Nat) (hashSalt : RStr)
    (rnS : Nat → List Nat) : DbState × Except CmdErr Unit :=
  if newPin ≠ confirmNewPin then (st, .error .pinMismatch)
  else
    match update_pin currentPin newPin failOn st saltR rnV hashSalt rnS with
    | (st1, .error e) => (st1, .error (.dbErr e))
    | (st1, .ok _) => ({ st1 with pin_cache := some newPin }, .ok ())

/-- The `delete_api_profile` Tauri command (`commands.rs` 205-243): list the
profiles, refuse when exactly one exists, else delete at the store layer and,
when the victim was listed as default, promote the first other listed profile
via `set_default_profile`. -/
def cmd_delete_api_profile (n : RStr) (st : DbState) : DbState × Except CmdErr Unit :=
  match list_api_profiles st with
  | .error e => (st, .error (.listFailed e))
  | .ok profiles =>
    if profiles.length = 1 then (st, .error .lastProfile)
    else
      let wasDefault := match profiles.find? (fun p => p.profile_name == n) with
        | some p => p.is_default
        | none => false
      match delete_api_profile n st with
      | (st1, .error e) => (st1, .error (.deleteFailed e))
      | (st1, .ok _) =>
        if wasDefault then
          match profiles.find? (fun p => !(p.profile_name == n)) with
          | none => (st1, .error .noOtherProfile)
          | some nd =>
            match set_default_profile nd.profile_name st1 with
            | (st2, .error e) => (st2, .error (.setDefaultFailed e))
            | (st2, .ok _) => (st2, .ok ())
        else (st1, .ok ())

theorem insertByName_length {α : Type} (r : Row α) (l : List (Row α)) :
    (insertByName r l).length = l.length + 1 := by
  induction l with
  | nil => rfl
  | cons x xs ih =>
    simp only [insertByName]
    split
    · simp
    · simp [ih]

theorem sortByName_length {α : Type} (l : List (Row α)) :
    (sortByName l).length = l.length := by
  induction l with
  | nil => rfl
  | cons x xs ih => simp [sortByName, insertByName_length, ih]

/-- C3: on an encrypted-schema store holding a row matching the query, with
no PIN cached, `get_api_info` returns `Ok(Some(profile))` with empty-string
`api_key`/`api_secret` — never an error and never plaintext secrets. -/
theorem get_api_info_pin_gated (st : DbState) (rows : List (Row EncCred))
    (q : Option RStr) (r : Row EncCred)
    (henc : st.api_info = some (ApiTable.enc rows))
    (hpin : st.pin_cache = none)
    (hfind : rows.find? (matchQ q) = some r) :
    get_api_info q st =
      .ok (some ⟨r.id, r.profile_name, [], [], r.api_url, r.port, r.is_default⟩) := by
  simp [get_api_info, henc, hfind, hpin]

/-- Concrete encrypted-schema row used by several witnesses. -/
def encRowA : Row EncCred := ⟨1, [97], ⟨[1], [2], [3], [4]⟩, [117], 443, true⟩

/-- Concrete encrypted-schema store with no cached PIN. -/
def encStateA : DbState := ⟨some (ApiTable.enc [encRowA]), none, none, [], none, none⟩

/-- Witness for C3 on a concrete encrypted store. -/
theorem get_api_info_pin_gated_witness :
    encStateA.api_info = some (ApiTable.enc [encRowA]) ∧
      get_api_info (some [97]) encStateA =
        .ok (some ⟨1, [97], [], [], [117], 443, true⟩) :=
  ⟨rfl, get_api_info_pin_gated encStateA [encRowA] (some [97]) encRowA rfl rfl (by decide)⟩

/-- C4: the `delete_api_profile` command on a store holding exactly one
profile fails with the last-profile error and leaves the store unchanged
(the profile is still present). -/
theorem cmd_delete_last_profile (st : DbState) (n : RStr)
    (hsome : st.api_info.isSome = true) (hlen : tableLenState st = 1) :
    cmd_delete_api_profile n st = (st, .error .lastProfile) := by
  cases hapi : st.api_info with
  | none => rw [hapi] at hsome; simp at hsome
  | some tbl =>
    cases tbl with
    | plain rows =>
      have hr : rows.length = 1 := by
        simpa [tableLenState, hapi] using hlen
      simp [cmd_delete_api_profile, list_api_profiles, hapi, sortByName_length, hr]
    | enc rows =>
      have hr : rows.length = 1 := by
        simpa [tableLenState, hapi] using hlen
      simp [cmd_delete_api_profile, list_api_profiles, hapi, sortByName_length, hr]

/-- Concrete unencrypted-schema row used by several witnesses. -/
def plainRowA : Row PlainCred := ⟨1, [97], ⟨[107], [115]⟩, [117], 443, true⟩

/-- Concrete unencrypted-schema store holding exactly one profile. -/
def plainStateA : DbState := ⟨some (ApiTable.plain [plainRowA]), none, none, [], none, none⟩

/-- Witness for C4 on a concrete one-profile store. -/
theorem cmd_delete_last_profile_witness :
    plainStateA.api_info.isSome = true ∧ tableLenState plainStateA = 1 ∧
      cmd_delete_api_profile [97] plainStateA = (plainStateA, .error .lastProfile) :=
  ⟨rfl, rfl, cmd_delete_last_profile plainStateA [97] rfl rfl⟩

/-- C7 (amended): when no `api_info` table exists, or an encrypted-schema one
does, `save_initial_api_info` (re)creates the unencrypted schema and leaves
the given profile as the sole, default entry; an encrypted table is dropped
and replaced.  (A surviving *unencrypted* table is not dropped — see the
counterexample.) -/
theorem save_initial_recreates (p : ApiInfo) (st : DbState)
    (h : st.api_info = none ∨ ∃ rs, st.api_info = some (ApiTable.enc rs)) :
    save_initial_api_info p st =
      ({ st with api_info := some (ApiTable.plain
          [⟨1, p.profile_name, ⟨p.api_key, p.api_secret⟩, p.api_url, p.port, true⟩]) },
        .ok ()) := by
  rcases h with h | ⟨rs, h⟩ <;> simp [save_initial_api_info, h]

/-- Witness for C7 on a concrete encrypted-schema store. -/
theorem save_initial_recreates_witness :
    (encStateA.api_info = none ∨ ∃ rs, encStateA.api_info = some (ApiTable.enc rs)) ∧
      save_initial_api_info ⟨0, [98], [107], [115], [117], 8443, false⟩ encStateA =
        ({ encStateA with api_info := some (ApiTable.plain
            [⟨1, [98], ⟨[107], [115]⟩, [117], 8443, true⟩]) }, .ok ()) :=
  ⟨Or.inr ⟨[encRowA], rfl⟩,
    save_initial_recreates ⟨0, [98], [107], [115], [117], 8443, false⟩ encStateA
      (Or.inr ⟨[encRowA], rfl⟩)⟩

/-- Counterexample for C7 as stated: on a prior store whose table already has
the *unencrypted* shape with one row, `save_initial_api_info` succeeds but the
given profile is not the sole entry — the old row survives (only an encrypted
table is dropped). -/
theorem save_initial_counterexample :
    (save_initial_api_info ⟨0, [98], [107], [115], [117], 8443, false⟩ plainStateA).2 =
        .ok () ∧
      tableLenState
        (save_initial_api_info ⟨0, [98], [107], [115], [117], 8443, false⟩ plainStateA).1 =
        2 := by
  refine ⟨by decide, by decide⟩

/-- C9: when `app_settings` holds a password hash the PIN verifies against
but a `pin_salt` that is not a valid B64 salt (such as the empty-string
column default), `verify_pin` with the correct PIN propagates the
key-derivation failure as an error instead of returning `Ok(true)`. -/
theorem verify_pin_invalid_salt (st : DbState) (s : AppSettings) (pin saltR : RStr)
    (rn : Nat → List Nat)
    (hs : st.app_settings = some s)
    (hv : verify_password s.password_hash pin = true)
    (hsalt : validB64Salt s.pin_salt = false) :
    (verify_pin pin st saltR rn).2 = .error (.conversion .invalidSalt) := by
  simp [verify_pin, hs, hv, derive_encryption_key, hsalt]

/-- Concrete store whose `pin_salt` is the empty-string default. -/
def emptySaltState : DbState :=
  ⟨some (ApiTable.enc [encRowA]), none, some ⟨hash_password [49] [], []⟩, [], none, none⟩

/-- Witness for C9: correct PIN `"1"`, empty `pin_salt`. -/
theorem verify_pin_invalid_salt_witness :
    verify_password (hash_password [49] []) [49] = true ∧
      validB64Salt ([] : RStr) = false ∧
      (verify_pin [49] emptySaltState [] (fun _ => [])).2 =
        .error (.conversion .invalidSalt) :=
  ⟨by decide, by decide,
    verify_pin_invalid_salt emptySaltState ⟨hash_password [49] [], []⟩ [49] []
      (fun _ => []) rfl (by decide) (by decide)⟩

/-- C8 (amended): the `update_pin` command fails with the mismatch error
whenever `new_pin ≠ confirm_new_pin`, without changing any state; and when
the confirmation matches, it fails with the invalid-credential error whenever
`current_pin` does not verify against the stored password hash (again leaving
the state unchanged).  The mismatch check runs first, so on inputs failing
both checks the mismatch error wins — see the counterexample. -/
theorem cmd_update_pin_errors :
    (∀ (cur newP confirmP : RStr) (failOn : RStr → Bool) (st : DbState)
        (saltR : RStr) (rnV : Nat → List Nat) (hashSalt : RStr) (rnS : Nat → List Nat),
        newP ≠ confirmP →
        cmd_update_pin cur newP confirmP failOn st saltR rnV hashSalt rnS =
          (st, .error .pinMismatch)) ∧
    (∀ (cur newP : RStr) (failOn : RStr → Bool) (st : DbState)
        (saltR : RStr) (rnV : Nat → List Nat) (hashSalt : RStr) (rnS : Nat → List Nat)
        (s : AppSettings),
        st.app_settings = some s →
        verify_password s.password_hash cur = false →
        cmd_update_pin cur newP newP failOn st saltR rnV hashSalt rnS =
          (st, .error (.dbErr .wrongCurrentPin))) := by
  constructor
  · intro cur newP confirmP failOn st saltR rnV hashSalt rnS hne
    simp [cmd_update_pin, hne]
  · intro cur newP failOn st saltR rnV hashSalt rnS s hset hv
    simp [cmd_update_pin, update_pin, verify_pin, hset, hv]

/-- Concrete store with an `app_settings` hash that the PIN `"1"` does not
verify against. -/
def badHashState : DbState :=
  ⟨some (ApiTable.plain [plainRowA]), none, some ⟨⟨[], []⟩, []⟩, [], none, none⟩

/-- Witness for C8 (both amended clauses at concrete inputs). -/
theorem cmd_update_pin_errors_witness :
    ([50] : RStr) ≠ [51] ∧
      cmd_update_pin [49] [50] [51] (fun _ => false) badHashState [] (fun _ => []) []
        (fun _ => []) = (badHashState, .error .pinMismatch) ∧
      verify_password (PHash.mk [] []) [49] = false ∧
      cmd_update_pin [49] [50] [50] (fun _ => false) badHashState [] (fun _ => []) []
        (fun _ => []) = (badHashState, .error (.dbErr .wrongCurrentPin)) :=
  ⟨by decide,
    cmd_update_pin_errors.1 [49] [50] [51] (fun _ => false) badHashState [] (fun _ => [])
      [] (fun _ => []) (by decide),
    by decide,
    cmd_update_pin_errors.2 [49] [50] (fun _ => false) badHashState [] (fun _ => [])
      [] (fun _ => []) ⟨⟨[], []⟩, []⟩ rfl (by decide)⟩

/-- Counterexample for C8 as stated: on an input where the confirmation
mismatches *and* the current PIN does not verify, the command fails with the
mismatch error, not the invalid-credential error — so "fails with the
invalid-credential error whenever current_pin does not verify" is false as a
universal statement. -/
theorem cmd_update_pin_counterexample :
    verify_password (PHash.mk [] []) [49] = false ∧
      badHashState.app_settings = some ⟨⟨[], []⟩, []⟩ ∧
      cmd_update_pin [49] [50] [51] (fun _ => false) badHashState [] (fun _ => []) []
        (fun _ => []) = (badHashState, .error .pinMismatch) ∧
      CmdErr.pinMismatch ≠ CmdErr.dbErr EMsg.wrongCurrentPin := by
  refine ⟨by decide, rfl, by decide, by decide⟩

theorem nodupKeys_iff {α : Type} [DecidableEq α] (l : List α) :
    nodupKeys l = true ↔ l.Nodup := by
  induction l with
  | nil => simp [nodupKeys]
  | cons x xs ih =>
    simp [nodupKeys, ih, List.contains, List.nodup_cons]

theorem countP_key_eq_zero {α β : Type} [BEq β] [LawfulBEq β] (key : Row α → β) (b : β)
    (rows : List (Row α)) (h : b ∉ rows.map key) :
    rows.countP (fun r => key r == b) = 0 := by
  rw [List.countP_eq_zero]
  intro r hr hbeq
  rw [beq_iff_eq] at hbeq
  exact h (hbeq ▸ List.mem_map_of_mem key hr)

theorem countP_key_eq_one {α β : Type} [BEq β] [LawfulBEq β] (key : Row α → β) (b : β)
    (rows : List (Row α)) (hnd : (rows.map key).Nodup) (hmem : b ∈ rows.map key) :
    rows.countP (fun r => key r == b) = 1 := by
  induction rows with
  | nil => simp at hmem
  | cons x xs ih =>
    rw [List.map_cons, List.nodup_cons] at hnd
    obtain ⟨hx, hnd⟩ := hnd
    rw [List.countP_cons]
    by_cases h : key x = b
    · subst h
      have h0 : xs.countP (fun r => key r == key x) = 0 :=
        countP_key_eq_zero key (key x) xs hx
      simp [h0]
    · have hmem2 : b ∈ xs.map key := by
        rw [List.map_cons] at hmem
        rcases List.mem_cons.mp hmem with h1 | h1
        · exact absurd h1.symm h
        · exact h1
      simp [ih hnd hmem2, h]

theorem namesOf_setDefRows {α : Type} (n : RStr) (rows : List (Row α)) :
    namesOf (setDefRows n rows) = namesOf rows := by
  induction rows with
  | nil => rfl
  | cons x xs ih => simpa [setDefRows, namesOf] using ih

theorem idsOf_setDefRows {α : Type} (n : RStr) (rows : List (Row α)) :
    idsOf (setDefRows n rows) = idsOf rows := by
  induction rows with
  | nil => rfl
  | cons x xs ih => simpa [setDefRows, idsOf] using ih

theorem defCount_setDefRows {α : Type} (n : RStr) (rows : List (Row α)) :
    defCount (setDefRows n rows) = rows.countP (fun r => r.profile_name == n) := by
  induction rows with
  | nil => rfl
  | cons x xs ih => simp [setDefRows, defCount, List.countP_cons, ih] at *; omega

theorem setDefRows_only {α : Type} (n : RStr) (rows : List (Row α)) (r : Row α)
    (hr : r ∈ setDefRows n rows) : r.is_default = (r.profile_name == n) := by
  simp only [setDefRows, List.mem_map] at hr
  obtain ⟨x, _, rfl⟩ := hr
  rfl

/-- Does the named (or default) profile hold the default flag, and only it?
Shape-generic statement over the current `api_info` table. -/
def onlyNamedDefault (n : RStr) (st : DbState) : Prop :=
  match st.api_info with
  | some (ApiTable.plain rows) => ∀ r ∈ rows, r.is_default = (r.profile_name == n)
  | some (ApiTable.enc rows) => ∀ r ∈ rows, r.is_default = (r.profile_name == n)
  | none => False

/-- C5: on a store in one of the two schema shapes (with the schema's
`UNIQUE` name constraint), `set_default_profile` either fails with `NotFound`
(`QueryReturnedNoRows`) leaving the store exactly as it was — when no row
matches the name — or succeeds leaving exactly the named row default and
every other row non-default; it never produces zero or multiple defaults. -/
theorem set_default_profile_spec (st : DbState) (n : RStr) (hwf : storeWF st = true) :
    (n ∉ storeNames st → set_default_profile n st = (st, .error .noRows)) ∧
    (n ∈ storeNames st →
      (set_default_profile n st).2 = .ok () ∧
        onlyNamedDefault n (set_default_profile n st).1 ∧
        defaultCountState (set_default_profile n st).1 = 1) := by
  cases hapi : st.api_info with
  | none => rw [storeWF, hapi] at hwf; simp at hwf
  | some tbl =>
    cases tbl with
    | plain rows =>
      simp only [storeWF, hapi, rowsWF, Bool.and_eq_true] at hwf
      have hnd : (namesOf rows).Nodup := (nodupKeys_iff (namesOf rows)).mp hwf.1
      constructor
      · intro habs
        rw [storeNames, hapi] at habs
        have h0 : rows.countP (fun r => r.profile_name == n) = 0 :=
          countP_key_eq_zero (fun r => r.profile_name) n rows habs
        simp [set_default_profile, hapi, h0]
      · intro hmem
        rw [storeNames, hapi] at hmem
        have h1 : rows.countP (fun r => r.profile_name == n) = 1 :=
          countP_key_eq_one (fun r => r.profile_name) n rows hnd hmem
        refine ⟨by simp [set_default_profile, hapi, h1], ?_, ?_⟩
        · simp only [set_default_profile, hapi, h1]
          simp [onlyNamedDefault]
          intro r hr
          exact setDefRows_only n rows r hr
        · simp only [set_default_profile, hapi, h1]
          simp [defaultCountState, defCount_setDefRows, h1]
    | enc rows =>
      simp only [storeWF, hapi, rowsWF, Bool.and_eq_true] at hwf
      have hnd : (namesOf rows).Nodup := (nodupKeys_iff (namesOf rows)).mp hwf.1
      constructor
      · intro habs
        rw [storeNames, hapi] at habs
        have h0 : rows.countP (fun r => r.profile_name == n) = 0 :=
          countP_key_eq_zero (fun r => r.profile_name) n rows habs
        simp [set_default_profile, hapi, h0]
      · intro hmem
        rw [storeNames, hapi] at hmem
        have h1 : rows.countP (fun r => r.profile_name == n) = 1 :=
          countP_key_eq_one (fun r => r.profile_name) n rows hnd hmem
        refine ⟨by simp [set_default_profile, hapi, h1], ?_, ?_⟩
        · simp only [set_default_profile, hapi, h1]
          simp [onlyNamedDefault]
          intro r hr
          exact setDefRows_only n rows r hr
        · simp only [set_default_profile, hapi, h1]
          simp [defaultCountState, defCount_setDefRows, h1]

/-- Second concrete unencrypted-schema row (non-default). -/
def plainRowB : Row PlainCred := ⟨2, [98], ⟨[106], [116]⟩, [118], 80, false⟩

/-- Concrete two-profile unencrypted store, `[97]` default. -/
def plainStateB : DbState :=
  ⟨some (ApiTable.plain [plainRowA, plainRowB]), none, none, [], none, none⟩

/-- Witness for C5: both the NotFound branch (name `[99]`) and the success
branch (name `[98]`) at a concrete two-profile store. -/
theorem set_default_profile_spec_witness :
    storeWF plainStateB = true ∧
      set_default_profile [99] plainStateB = (plainStateB, .error .noRows) ∧
      (set_default_profile [98] plainStateB).2 = .ok () ∧
      defaultCountState (set_default_profile [98] plainStateB).1 = 1 :=
  ⟨by decide,
    (set_default_profile_spec plainStateB [99] (by decide)).1 (by decide),
    ((set_default_profile_spec plainStateB [98] (by decide)).2 (by decide)).1,
    ((set_default_profile_spec plainStateB [98] (by decide)).2 (by decide)).2.2⟩

/-- C6: the Migration Procedure is idempotent.  First clause: whenever the
encrypted marker column already exists or no plaintext `api_key` column does,
`complete_migration` returns success immediately without modifying the store.
Second clause: any successful run leaves a state on which a second run is
such an immediate no-op, so running the procedure twice yields the same
encrypted table contents as running it once. -/
theorem complete_migration_idempotent :
    (∀ (st : DbState) (pin saltR : RStr) (rn : Nat → List Nat),
        hasEncryptedColumn st = true ∨ hasApiKeyColumn st = false →
        complete_migration pin st saltR rn = (st, .ok ())) ∧
    (∀ (st st' : DbState) (pin saltR : RStr) (rn : Nat → List Nat)
        (saltR2 : RStr) (rn2 : Nat → List Nat),
        complete_migration pin st saltR rn = (st', .ok ()) →
        complete_migration pin st' saltR2 rn2 = (st', .ok ())) := by
  have noop : ∀ (st : DbState) (pin saltR : RStr) (rn : Nat → List Nat),
      hasEncryptedColumn st = true ∨ hasApiKeyColumn st = false →
      complete_migration pin st saltR rn = (st, .ok ()) := by
    intro st pin saltR rn h
    cases hapi : st.api_info with
    | none => simp [complete_migration, hapi]
    | some tbl =>
      cases tbl with
      | plain rows =>
        rcases h with h | h
        · rw [hasEncryptedColumn, hapi] at h; simp at h
        · rw [hasApiKeyColumn, hapi] at h; simp at h
      | enc rows => simp [complete_migration, hapi]
  refine ⟨noop, ?_⟩
  intro st st' pin saltR rn saltR2 rn2 h
  cases hapi : st.api_info with
  | none =>
    have hst : st' = st := by
      rw [complete_migration, hapi] at h
      exact (Prod.mk.injEq _ _ _ _ ▸ h).1.symm
    rw [hst]
    exact noop st pin saltR2 rn2 (Or.inr (by rw [hasApiKeyColumn, hapi]))
  | some tbl =>
    cases tbl with
    | enc rows =>
      have hst : st' = st := by
        rw [complete_migration, hapi] at h
        exact (Prod.mk.injEq _ _ _ _ ▸ h).1.symm
      rw [hst]
      exact noop st pin saltR2 rn2 (Or.inl (by rw [hasEncryptedColumn, hapi]))
    | plain rows =>
      simp only [complete_migration, hapi] at h
      split at h
      · simp at h
      · injection h with h1 h2
        subst h1
        exact noop _ pin saltR2 rn2 (Or.inl rfl)

set_option maxRecDepth 100000 in
/-- Witness for C6: the immediate no-op at a concrete encrypted-schema store,
and idempotence after a successful full migration of a concrete one-profile
plaintext store. -/
theorem complete_migration_idempotent_witness :
    (hasEncryptedColumn encStateA = true ∨ hasApiKeyColumn encStateA = false) ∧
      complete_migration [49] encStateA [65] (fun _ => []) = (encStateA, .ok ()) ∧
      complete_migration [49] plainStateA [65] (fun _ => []) =
        ((complete_migration [49] plainStateA [65] (fun _ => [])).1, .ok ()) ∧
      complete_migration [49] (complete_migration [49] plainStateA [65] (fun _ => [])).1
          [66] (fun _ => [1]) =
        ((complete_migration [49] plainStateA [65] (fun _ => [])).1, .ok ()) :=
  ⟨Or.inl rfl,
    complete_migration_idempotent.1 encStateA [49] [65] (fun _ => []) (Or.inl rfl),
    by decide,
    complete_migration_idempotent.2 plainStateA _ [49] [65] (fun _ => []) [66]
      (fun _ => [1]) (by decide)⟩

theorem migrationSaltStep_pin_cache (st : DbState) (saltR : RStr) :
    (migrationSaltStep st saltR).pin_cache = st.pin_cache := by
  unfold migrationSaltStep
  split <;> rfl

theorem migrationTableStep_pin_cache (st : DbState) :
    (migrationTableStep st).pin_cache = st.pin_cache := by
  unfold migrationTableStep
  split <;> rfl

theorem complete_migration_pin_cache (pin : RStr) (st : DbState) (saltR : RStr)
    (rn : Nat → List Nat) :
    (complete_migration pin st saltR rn).1.pin_cache = st.pin_cache := by
  cases hapi : st.api_info with
  | none => simp [complete_migration, hapi]
  | some tbl =>
    cases tbl with
    | enc rows => simp [complete_migration, hapi]
    | plain rows =>
      simp only [complete_migration, hapi]
      split <;>
        simp [migrationTableStep_pin_cache, migrationSaltStep_pin_cache]

theorem verify_pin_cache_on_true (pin : RStr) (st : DbState) (saltR : RStr)
    (rn : Nat → List Nat) (st1 : DbState)
    (h : verify_pin pin st saltR rn = (st1, .ok true)) :
    st1.pin_cache = some pin := by
  cases happ : st.app_settings with
  | none => simp only [verify_pin, happ] at h; simp at h
  | some s =>
    simp only [verify_pin, happ] at h
    by_cases hv : verify_password s.password_hash pin = true
    · rw [if_pos hv] at h
      cases hd : derive_encryption_key pin s.pin_salt with
      | error k => rw [hd] at h; simp at h
      | ok key =>
        rw [hd] at h
        injection h with h1 h2
        subst h1
        simp [complete_migration_pin_cache]
    · rw [if_neg hv] at h
      simp at h

theorem save_api_info_pin_cache (p : ApiInfo) (st : DbState) (n1 n2 : List Nat) :
    (save_api_info p st n1 n2).1.pin_cache = st.pin_cache := by
  cases hapi : st.api_info with
  | none => simp [save_api_info, hapi]
  | some tbl =>
    cases tbl with
    | plain rows => simp [save_api_info, hapi]
    | enc rows =>
      cases happ : st.app_settings with
      | none => simp [save_api_info, hapi, happ]
      | some s =>
        cases hpc : st.pin_cache with
        | none => simp [save_api_info, hapi, happ, hpc]
        | some pin =>
          cases hf : rows.find? (fun r => r.profile_name == p.profile_name) with
          | none => simp [save_api_info, hapi, happ, hpc, hf]
          | some r => simp [save_api_info, hapi, happ, hpc, hf]

theorem resaveLoop_restores (failOn : RStr → Bool) (c : RStr) (rn : Nat → List Nat)
    (ps : List ApiInfo) :
    ∀ (i : Nat) (st stF : DbState) (e : EMsg),
      resaveLoop failOn (some c) rn i ps st = (stF, .error e) →
      stF.pin_cache = some c := by
  induction ps with
  | nil =>
    intro i st stF e h
    simp [resaveLoop] at h
  | cons p rest ih =>
    intro i st stF e h
    unfold resaveLoop at h
    rcases hsv : save_api_info_io failOn p st (rn (2 * i)) (rn (2 * i + 1)) with ⟨st1, r⟩
    rw [hsv] at h
    cases r with
    | ok u => exact ih (i + 1) st1 stF e h
    | error e1 =>
      injection h with h1 h2
      subst h1
      rfl

/-- C10: whenever a run of `update_pin` fails while re-encrypting some
profile (surfacing as the error naming the profile whose save failed), the
PIN that was cached before the change — the verified current PIN — has been
restored into the Session Key Cache before the error is returned, so the
cache does not retain the new PIN on failure. -/
theorem update_pin_restores_old_pin (currentPin newPin : RStr) (failOn : RStr → Bool)
    (st : DbState) (saltR : RStr) (rnV : Nat → List Nat) (hashSalt : RStr)
    (rnS : Nat → List Nat) (stF : DbState) (n : RStr) (e : SqlErr)
    (hcached : st.pin_cache.isSome = true)
    (h : update_pin currentPin newPin failOn st saltR rnV hashSalt rnS =
      (stF, .error (.saveProfileFailed n e))) :
    stF.pin_cache = some currentPin := by
  unfold update_pin at h
  rcases hv : verify_pin currentPin st saltR rnV with ⟨st1, r⟩
  rw [hv] at h
  cases r with
  | error e1 => simp at h
  | ok b =>
    cases b with
    | false => simp at h
    | true =>
      simp only [Bool.not_true, Bool.false_eq_true, if_false] at h
      cases hl : list_api_profiles st1 with
      | error e2 => rw [hl] at h; simp at h
      | ok profiles =>
        rw [hl] at h
        have hc : st1.pin_cache = some currentPin :=
          verify_pin_cache_on_true currentPin st saltR rnV st1 hv
        simp only [hc] at h
        exact resaveLoop_restores failOn currentPin rnS _ 0 _ stF _ h

/-- Concrete encrypted store with a cached PIN `"1"`, a hash `"1"` verifies
against, and a valid 4-character B64 `pin_salt`. -/
def updState : DbState :=
  ⟨some (ApiTable.enc [encRowA]), none,
    some ⟨hash_password [49] [65, 65, 65, 65], [65, 65, 65, 65]⟩, [], some [49], none⟩

set_option maxRecDepth 400000 in
/-- Witness for C10: every profile save fails (injected storage fault), and
after the failing `update_pin [49] → [50]` run the cache again holds the old
PIN `[49]`. -/
theorem update_pin_restores_old_pin_witness :
    updState.pin_cache.isSome = true ∧
      (update_pin [49] [50] (fun _ => true) updState [66] (fun _ => []) [67]
          (fun _ => [])).1.pin_cache = some [49] :=
  ⟨rfl,
    update_pin_restores_old_pin [49] [50] (fun _ => true) updState [66] (fun _ => [])
      [67] (fun _ => [])
      (update_pin [49] [50] (fun _ => true) updState [66] (fun _ => []) [67]
        (fun _ => [])).1
      [97] .ioFault rfl (by decide)⟩

theorem minIdOf_eq_none {α : Type} (rows : List (Row α)) :
    minIdOf rows = none ↔ rows = [] := by
  cases rows <;> simp [minIdOf]

theorem minIdOf_mem {α : Type} (rows : List (Row α)) (m : Int)
    (h : minIdOf rows = some m) : m ∈ idsOf rows := by
  induction rows generalizing m with
  | nil => simp [minIdOf] at h
  | cons x xs ih =>
    rw [minIdOf] at h
    injection h with h
    cases hmx : minIdOf xs with
    | none =>
      rw [hmx] at h
      have h' : x.id = m := h
      simp only [idsOf, List.map_cons, List.mem_cons]
      exact Or.inl h'.symm
    | some m2 =>
      rw [hmx] at h
      have h' : min x.id m2 = m := h
      simp only [idsOf, List.map_cons, List.mem_cons]
      rcases min_choice x.id m2 with hc | hc
      · exact Or.inl (by rw [← h', hc])
      · refine Or.inr ?_
        rw [← h', hc]
        exact ih m2 hmx

theorem promoteRows_eq_self {α : Type} (m : Int) (rows : List (Row α))
    (h : m ∉ idsOf rows) : promoteRows m rows = rows := by
  induction rows with
  | nil => rfl
  | cons x xs ih =>
    rw [idsOf, List.map_cons, List.mem_cons] at h
    push_neg at h
    obtain ⟨h1, h2⟩ := h
    show (if x.id = m then _ else x) :: promoteRows m xs = x :: xs
    rw [if_neg (fun he => h1 he.symm), ih h2]

theorem namesOf_promoteRows {α : Type} (m : Int) (rows : List (Row α)) :
    namesOf (promoteRows m rows) = namesOf rows := by
  induction rows with
  | nil => rfl
  | cons x xs ih =>
    show (namesOf ((if x.id = m then _ else x) :: promoteRows m xs)) = _
    rw [namesOf, List.map_cons]
    rw [namesOf] at ih
    rw [ih]
    by_cases he : x.id = m
    · rw [if_pos he]; rfl
    · rw [if_neg he]; rfl

theorem idsOf_promoteRows {α : Type} (m : Int) (rows : List (Row α)) :
    idsOf (promoteRows m rows) = idsOf rows := by
  induction rows with
  | nil => rfl
  | cons x xs ih =>
    show (idsOf ((if x.id = m then _ else x) :: promoteRows m xs)) = _
    rw [idsOf, List.map_cons]
    rw [idsOf] at ih
    rw [ih]
    by_cases he : x.id = m
    · rw [if_pos he]; rfl
    · rw [if_neg he]; rfl

theorem defCount_promoteRows {α : Type} (m : Int) (rows : List (Row α))
    (hnd : (idsOf rows).Nodup) (hm : m ∈ idsOf rows) (h0 : defCount rows = 0) :
    defCount (promoteRows m rows) = 1 := by
  induction rows with
  | nil => simp [idsOf] at hm
  | cons x xs ih =>
    rw [idsOf, List.map_cons, List.nodup_cons] at hnd
    obtain ⟨hx, hnd⟩ := hnd
    rw [defCount, List.countP_cons] at h0
    have hxd : x.is_default = false := by
      cases hb : x.is_default
      · rfl
      · rw [hb] at h0; simp at h0
    have h0t : defCount xs = 0 := by
      rw [hxd] at h0
      simpa [defCount] using h0
    by_cases he : x.id = m
    · subst he
      show defCount ((if x.id = x.id then { x with is_default := true } else x) ::
        promoteRows x.id xs) = 1
      rw [if_pos rfl, promoteRows_eq_self x.id xs hx]
      rw [defCount, List.countP_cons]
      have : defCount xs = 0 := h0t
      rw [defCount] at this
      simp [this]
    · have hm2 : m ∈ idsOf xs := by
        rw [idsOf, List.map_cons, List.mem_cons] at hm
        rcases hm with hm | hm
        · exact absurd hm.symm he
        · exact hm
      show defCount ((if x.id = m then { x with is_default := true } else x) ::
        promoteRows m xs) = 1
      rw [if_neg he, defCount, List.countP_cons]
      have := ih hnd hm2 h0t
      rw [defCount] at this
      simp [this, hxd]

theorem promoteMin_defCount {α : Type} (rows : List (Row α)) (hne : rows ≠ [])
    (hnd : (idsOf rows).Nodup) (h0 : defCount rows = 0) :
    defCount (promoteMin rows) = 1 := by
  unfold promoteMin
  cases hmi : minIdOf rows with
  | none => exact absurd ((minIdOf_eq_none rows).mp hmi) hne
  | some m => exact defCount_promoteRows m rows hnd (minIdOf_mem rows m hmi) h0

theorem promoteMin_namesOf {α : Type} (rows : List (Row α)) :
    namesOf (promoteMin rows) = namesOf rows := by
  unfold promoteMin
  cases minIdOf rows with
  | none => rfl
  | some m => exact namesOf_promoteRows m rows

theorem promoteMin_idsOf {α : Type} (rows : List (Row α)) :
    idsOf (promoteMin rows) = idsOf rows := by
  unfold promoteMin
  cases minIdOf rows with
  | none => rfl
  | some m => exact idsOf_promoteRows m rows

theorem perm_cons_filter_of_find {α : Type} (n : RStr) (rows : List (Row α)) (r : Row α)
    (hnd : (namesOf rows).Nodup)
    (hf : rows.find? (fun x => x.profile_name == n) = some r) :
    rows.Perm (r :: rows.filter (fun x => !(x.profile_name == n))) := by
  induction rows with
  | nil => simp at hf
  | cons x xs ih =>
    rw [namesOf, List.map_cons, List.nodup_cons] at hnd
    obtain ⟨hx, hnd⟩ := hnd
    have hfc : cond (x.profile_name == n) (some x)
        (xs.find? (fun y => y.profile_name == n)) = some r := hf
    have hfilc : (x :: xs).filter (fun y => !(y.profile_name == n)) =
        cond (!(x.profile_name == n)) (x :: xs.filter (fun y => !(y.profile_name == n)))
          (xs.filter (fun y => !(y.profile_name == n))) := rfl
    by_cases hxe : (x.profile_name == n) = true
    · rw [hxe, cond_true] at hfc
      injection hfc with hfc
      subst hfc
      rw [hfilc, hxe, Bool.not_true, cond_false]
      have hq : ∀ y ∈ xs, (!(y.profile_name == n)) = true := by
        intro y hy
        rw [beq_iff_eq] at hxe
        simp only [Bool.not_eq_eq_eq_not, Bool.not_true, beq_eq_false_iff_ne, ne_eq]
        intro he
        exact hx (by rw [hxe, ← he]; exact List.mem_map_of_mem _ hy)
      rw [List.filter_eq_self.mpr hq]
    · have hxf : (x.profile_name == n) = false := by simpa using hxe
      rw [hxf, cond_false] at hfc
      have hperm := ih hnd hfc
      rw [hfilc, hxf, Bool.not_false, cond_true]
      exact (hperm.cons x).trans (List.Perm.swap r x _)

theorem deleteRows_preserves {α : Type} (n : RStr) (rows rows2 : List (Row α)) (pid : Int)
    (hwf : rowsWF rows = true) (h1 : defCount rows = 1)
    (hdel : deleteRows n rows = .ok (rows2, pid)) :
    rowsWF rows2 = true ∧ defCount rows2 = 1 := by
  rw [rowsWF, Bool.and_eq_true] at hwf
  have hndn : (namesOf rows).Nodup := (nodupKeys_iff _).mp hwf.1
  have hndi : (idsOf rows).Nodup := (nodupKeys_iff _).mp hwf.2
  unfold deleteRows at hdel
  split at hdel
  · simp at hdel
  · rename_i hlen
    cases hf : rows.find? (fun x => x.profile_name == n) with
    | none => rw [hf] at hdel; simp at hdel
    | some r =>
      rw [hf] at hdel
      injection hdel with hp
      injection hp with hrows hpid
      subst hrows
      have hperm := perm_cons_filter_of_find n rows r hndn hf
      have hcount := hperm.countP_eq (fun x => x.is_default)
      rw [List.countP_cons] at hcount
      have hlen2 : rows.length =
          (rows.filter (fun x => !(x.profile_name == n))).length + 1 := by
        have := hperm.length_eq
        simpa using this
      have hsubn : (namesOf (rows.filter (fun x => !(x.profile_name == n)))).Sublist
          (namesOf rows) := (List.filter_sublist rows).map _
      have hsubi : (idsOf (rows.filter (fun x => !(x.profile_name == n)))).Sublist
          (idsOf rows) := (List.filter_sublist rows).map _
      have hndn2 := hndn.sublist hsubn
      have hndi2 := hndi.sublist hsubi
      have hwf2 : rowsWF (rows.filter (fun x => !(x.profile_name == n))) = true := by
        rw [rowsWF, Bool.and_eq_true]
        exact ⟨(nodupKeys_iff _).mpr hndn2, (nodupKeys_iff _).mpr hndi2⟩
      by_cases hd : r.is_default = true
      · rw [if_pos hd]
        have hc0 : defCount (rows.filter (fun x => !(x.profile_name == n))) = 0 := by
          rw [defCount] at h1 ⊢
          rw [hcount, hd] at h1
          simpa using h1
        have hne : rows.filter (fun x => !(x.profile_name == n)) ≠ [] := by
          intro he
          rw [he] at hlen2
          simp at hlen2
          omega
        refine ⟨?_, promoteMin_defCount _ hne hndi2 hc0⟩
        rw [rowsWF, Bool.and_eq_true, promoteMin_namesOf, promoteMin_idsOf]
        exact ⟨(nodupKeys_iff _).mpr hndn2, (nodupKeys_iff _).mpr hndi2⟩
      · rw [if_neg hd]
        have hc2 : defCount (rows.filter (fun x => !(x.profile_name == n))) = 1 := by
          rw [defCount] at h1 ⊢
          rw [hcount] at h1
          simp only [if_neg hd] at h1
          simpa using h1
        exact ⟨hwf2, hc2⟩

theorem setDefRows_countP_one {α : Type} (n : RStr) (rows : List (Row α))
    (hnd : (namesOf rows).Nodup)
    (hc : rows.countP (fun r => r.profile_name == n) ≠ 0) :
    defCount (setDefRows n rows) = 1 := by
  rw [defCount_setDefRows]
  have hpos : 0 < rows.countP (fun r => r.profile_name == n) := Nat.pos_of_ne_zero hc
  rw [List.countP_pos_iff] at hpos
  obtain ⟨r, hr, hb⟩ := hpos
  rw [beq_iff_eq] at hb
  exact countP_key_eq_one (fun r => r.profile_name) n rows hnd
    (hb ▸ List.mem_map_of_mem _ hr)

theorem setDefRows_rowsWF {α : Type} (n : RStr) (rows : List (Row α))
    (hwf : rowsWF rows = true) : rowsWF (setDefRows n rows) = true := by
  rw [rowsWF, namesOf_setDefRows, idsOf_setDefRows]
  rw [rowsWF] at hwf
  exact hwf

/-- The operations of the C1 invariant sequence (the store-layer calls whose
any-order composition preserves the single-default invariant). -/
inductive StoreOp
  | setDef (n : RStr)
  | del (n : RStr)

/-- The state effect of one operation: the state returned by the call,
whether it committed or rolled back. -/
def applyOp (op : StoreOp) (st : DbState) : DbState :=
  match op with
  | .setDef n => (set_default_profile n st).1
  | .del n => (delete_api_profile n st).1

/-- Run a sequence of store operations left to right. -/
def runOps : List StoreOp → DbState → DbState
  | [], st => st
  | op :: rest, st => runOps rest (applyOp op st)

theorem applyOp_preserves (op : StoreOp) (st : DbState)
    (hwf : storeWF st = true) (h1 : defaultCountState st = 1) :
    storeWF (applyOp op st) = true ∧ defaultCountState (applyOp op st) = 1 := by
  cases op with
  | setDef n =>
    show storeWF (set_default_profile n st).1 = true ∧
      defaultCountState (set_default_profile n st).1 = 1
    cases hapi : st.api_info with
    | none => rw [storeWF, hapi] at hwf; simp at hwf
    | some tbl =>
      cases tbl with
      | plain rows =>
        have hwfr := hwf
        simp only [storeWF, hapi] at hwfr
        have hndn : (namesOf rows).Nodup := by
          rw [rowsWF, Bool.and_eq_true] at hwfr
          exact (nodupKeys_iff _).mp hwfr.1
        simp only [set_default_profile, hapi]
        by_cases hc : rows.countP (fun r => r.profile_name == n) = 0
        · rw [if_pos hc]
          exact ⟨hwf, h1⟩
        · rw [if_neg hc]
          constructor
          · show rowsWF (setDefRows n rows) = true
            exact setDefRows_rowsWF n rows hwfr
          · show defCount (setDefRows n rows) = 1
            exact setDefRows_countP_one n rows hndn hc
      | enc rows =>
        have hwfr := hwf
        simp only [storeWF, hapi] at hwfr
        have hndn : (namesOf rows).Nodup := by
          rw [rowsWF, Bool.and_eq_true] at hwfr
          exact (nodupKeys_iff _).mp hwfr.1
        simp only [set_default_profile, hapi]
        by_cases hc : rows.countP (fun r => r.profile_name == n) = 0
        · rw [if_pos hc]
          exact ⟨hwf, h1⟩
        · rw [if_neg hc]
          constructor
          · show rowsWF (setDefRows n rows) = true
            exact setDefRows_rowsWF n rows hwfr
          · show defCount (setDefRows n rows) = 1
            exact setDefRows_countP_one n rows hndn hc
  | del n =>
    show storeWF (delete_api_profile n st).1 = true ∧
      defaultCountState (delete_api_profile n st).1 = 1
    cases hapi : st.api_info with
    | none => rw [storeWF, hapi] at hwf; simp at hwf
    | some tbl =>
      cases tbl with
      | plain rows =>
        have hwfr := hwf
        simp only [storeWF, hapi] at hwfr
        have h1r : defCount rows = 1 := by
          simp only [defaultCountState, hapi] at h1
          exact h1
        simp only [delete_api_profile, hapi]
        cases hdel : deleteRows n rows with
        | error e => exact ⟨hwf, h1⟩
        | ok pr =>
          rcases pr with ⟨rows2, pid⟩
          have hpres := deleteRows_preserves n rows rows2 pid hwfr h1r hdel
          constructor
          · show rowsWF rows2 = true
            exact hpres.1
          · show defCount rows2 = 1
            exact hpres.2
      | enc rows =>
        have hwfr := hwf
        simp only [storeWF, hapi] at hwfr
        have h1r : defCount rows = 1 := by
          simp only [defaultCountState, hapi] at h1
          exact h1
        simp only [delete_api_profile, hapi]
        cases hdel : deleteRows n rows with
        | error e => exact ⟨hwf, h1⟩
        | ok pr =>
          rcases pr with ⟨rows2, pid⟩
          have hpres := deleteRows_preserves n rows rows2 pid hwfr h1r hdel
          constructor
          · show rowsWF rows2 = true
            exact hpres.1
          · show defCount rows2 = 1
            exact hpres.2

theorem runOps_preserves (ops : List StoreOp) (st : DbState)
    (hwf : storeWF st = true) (h1 : defaultCountState st = 1) :
    storeWF (runOps ops st) = true ∧ defaultCountState (runOps ops st) = 1 := by
  induction ops generalizing st with
  | nil => exact ⟨hwf, h1⟩
  | cons op rest ih =>
    have h := applyOp_preserves op st hwf h1
    exact ih (applyOp op st) h.1 h.2

/-- C1 (amended): on a well-formed non-empty store with exactly one default
profile, every sequence of `set_default_profile` and `delete_api_profile`
calls preserves the exactly-one-default invariant.  `save_api_info` is not in
the preserved set: its unencrypted-schema upsert writes the caller's
`is_default` flag verbatim and can create a second default (or remove the
only one) — see the counterexample. -/
theorem default_invariant_ops (ops : List StoreOp) (st : DbState)
    (hwf : storeWF st = true) (h1 : defaultCountState st = 1) :
    defaultCountState (runOps ops st) = 1 :=
  (runOps_preserves ops st hwf h1).2

/-- Witness for C1: a concrete sequence (set default to `[98]`, delete
`[98]`, delete a missing name) on a concrete two-profile store. -/
theorem default_invariant_ops_witness :
    storeWF plainStateB = true ∧ defaultCountState plainStateB = 1 ∧
      defaultCountState
        (runOps [StoreOp.setDef [98], StoreOp.del [98], StoreOp.del [99]] plainStateB) = 1 :=
  ⟨by decide, by decide,
    default_invariant_ops [StoreOp.setDef [98], StoreOp.del [98], StoreOp.del [99]]
      plainStateB (by decide) (by decide)⟩

/-- Counterexample for C1 as stated: starting from a non-empty store with
exactly one default, a single `save_api_info` call (one of the operations the
claim quantifies over) inserting a second profile with `is_default = true`
leaves the store with two default rows. -/
theorem default_invariant_counterexample :
    defaultCountState plainStateA = 1 ∧
      (save_api_info ⟨0, [98], [107], [115], [117], 8443, true⟩ plainStateA [] []).2 =
        .ok () ∧
      defaultCountState
        (save_api_info ⟨0, [98], [107], [115], [117], 8443, true⟩ plainStateA [] []).1 =
        2 := by
  refine ⟨by decide, by decide, by decide⟩

/-- Concrete store holding no `api_info` table at all. -/
def noTableState : DbState := ⟨none, none, none, [], none, none⟩

/-- Counterexample for C5 as stated over *every* store state: on a store with
no `api_info` table (reachable before first-run setup), `set_default_profile`
fails — leaving the store unchanged — but with the missing-table storage
error from the first `UPDATE`, not with `NotFound`
(`QueryReturnedNoRows`). -/
theorem set_default_profile_counterexample :
    set_default_profile [97] noTableState = (noTableState, .error .noTable) ∧
      SqlErr.noTable ≠ SqlErr.noRows := by
  refine ⟨by decide, by decide⟩
